import Mathlib

/-!
Shallow embedding of the turnstyle run-serialization gate
(`src/wait.ts`, class `Waiter`) together with proofs of the
specification's claims about it.

The `Waiter.wait` method is modelled as a pure per-tick step
function `tick`: the network fetches (`githubClient.runs`,
`githubClient.jobs`, `githubClient.steps`) become explicit
parameters (`runs`, `jobsOf`, `stepsOf`), the mutable `attempt`
field and the `secondsSoFar` argument become explicit state, the
`setOutput('force_continued', _)` side effect becomes the
`forceOut` field of the tick's result, and the decision the tick
reaches (return, throw, or sleep-and-recurse) becomes the
`Transition` field.  JavaScript numbers that only ever hold
non-negative whole seconds / ids are modelled as `Nat`; nullable or
optional string fields as `Option String`; JavaScript truthiness
tests on optional values are made explicit (`truthyNat`,
`truthyStr`).
-/

namespace Turnstyle

/-- A workflow run as consumed by `Waiter.wait`: fields `id`,
`status`, `conclusion` (nullable), `display_title` (optional),
`name` (optional) of the objects returned by the runs endpoint. -/
structure Run where
  id : Nat
  status : String
  conclusion : Option String
  display_title : Option String
  name : Option String
deriving DecidableEq, Repr

/-- A job of a run: fields `id`, `name`, `status` used by the job
branch of `Waiter.wait`. -/
structure Job where
  id : Nat
  name : String
  status : String
deriving DecidableEq, Repr

/-- A step of a job: fields `name`, `status` used by the step
branch of `Waiter.wait`. -/
structure Step where
  name : String
  status : String
deriving DecidableEq, Repr

/-- The slice of the action `Input` record read by `Waiter.wait`.
Optional numeric thresholds are `Option Nat` (absent = `none`);
JavaScript tests them with truthiness, so a present `0` behaves
like an absent value. -/
structure Input where
  runId : Nat
  pollIntervalSeconds : Nat
  continueAfterSeconds : Option Nat
  abortAfterSeconds : Option Nat
  initialWaitSeconds : Nat
  queueName : Option String
  jobToWaitFor : Option String
  stepToWaitFor : Option String
  exponentialBackoffRetries : Bool
deriving DecidableEq, Repr

/-- JavaScript truthiness of an optional number: `undefined` and
`0` are falsy. -/
def truthyNat : Option Nat → Bool
  | some n => n ≠ 0
  | none => false

/-- JavaScript truthiness of an optional string: `undefined` and
the empty string are falsy. -/
def truthyStr : Option String → Bool
  | some s => s ≠ ""
  | none => false

/-- JavaScript `String.prototype.includes`: case-sensitive,
unanchored substring test.  `String.splitOn` returns at least two
pieces exactly when the separator occurs; the empty pattern is
contained in every string. -/
def strIncludes (s pat : String) : Bool :=
  pat = "" || (s.splitOn pat).length ≥ 2

/-- Optional chaining `x?.includes(pat)`: an absent receiver makes
the whole expression falsy. -/
def optIncludes (s : Option String) (pat : String) : Bool :=
  match s with
  | some s => strIncludes s pat
  | none => false

/-- Step 1 of the pipeline in `Waiter.wait` (lines 86-107): when
the queue name is truthy, keep runs whose `display_title` or
`name` contains it. -/
def queueFiltered (i : Input) (runs : List Run) : List Run :=
  if truthyStr i.queueName then
    runs.filter fun r =>
      optIncludes r.display_title (i.queueName.getD "") ||
        optIncludes r.name (i.queueName.getD "")
  else runs

/-- Step 2 (line 110): keep runs whose id is strictly below the
current run id. -/
def runsBeforeCurrent (i : Input) (runs : List Run) : List Run :=
  (queueFiltered i runs).filter fun r => r.id < i.runId

/-- Stable insertion of a run into a list sorted by descending id:
`r.id ≥ x.id` places the element that occurred earlier in the
input before any element it ties with, matching the stable
JavaScript `Array.prototype.sort`. -/
def insertRun (r : Run) : List Run → List Run
  | [] => [r]
  | x :: xs => if r.id ≥ x.id then r :: x :: xs else x :: insertRun r xs

/-- Stable sort by descending id, the effect of
`.sort((a, b) => b.id - a.id)` on line 138 (JavaScript sort is
stable, so any stable sort under the same comparator computes the
same list). -/
def sortRunsDesc : List Run → List Run
  | [] => []
  | x :: xs => insertRun x (sortRunsDesc xs)

/-- The `previousRuns` value of `Waiter.wait` (lines 86-138): queue
filter, id filter, drop `conclusion === 'success'`, sort by id
descending. -/
def previousRuns (i : Input) (runs : List Run) : List Run :=
  sortRunsDesc
    ((runsBeforeCurrent i runs).filter fun r => !(r.conclusion == some "success"))

/-- The decision a single tick of `Waiter.wait` reaches.
`Continued e` is the line-44 `return secondsSoFar || 0`;
`Aborted e` is the line-50 `throw` whose message carries the
elapsed seconds; `Proceeded` is any of the three bare `return;`
statements (lines 161, 188, 207), which return no value; the four
recursive constructors carry the seconds slept and the
`secondsSoFar` passed to the recursive call. -/
inductive Transition where
  | Continued (e : Nat)
  | Aborted (e : Nat)
  | Proceeded
  | InitialDelay (sleep eNext : Nat)
  | WaitingFullRun (sleep eNext : Nat)
  | WaitingJob (sleep eNext : Nat)
  | WaitingStep (sleep eNext : Nat)
deriving DecidableEq, Repr

/-- Result of one tick: the transition taken, the value of the
`attempt` field afterwards, and the value written to the
`force_continued` output during the tick (`none` when the tick
does not call `setOutput`). -/
structure TickResult where
  transition : Transition
  attempt : Nat
  forceOut : Option String
deriving DecidableEq, Repr

/-- Line 41: `input.continueAfterSeconds && (secondsSoFar || 0) >=
input.continueAfterSeconds`. -/
def continueHit (i : Input) (e : Nat) : Bool :=
  truthyNat i.continueAfterSeconds && i.continueAfterSeconds.getD 0 ≤ e

/-- Line 47: `input.abortAfterSeconds && (secondsSoFar || 0) >=
input.abortAfterSeconds`. -/
def abortHit (i : Input) (e : Nat) : Bool :=
  truthyNat i.abortAfterSeconds && i.abortAfterSeconds.getD 0 ≤ e

/-- The polling interval handed to `pollAndWait`: the base
interval when backoff is disabled, otherwise
`pollIntervalSeconds * (2 * attempt || 1)` (lines 181, 200, 218). -/
def rawInterval (i : Input) (a : Nat) : Nat :=
  if i.exponentialBackoffRetries then
    i.pollIntervalSeconds * (if 2 * a = 0 then 1 else 2 * a)
  else i.pollIntervalSeconds

/-- Line 227 of `pollAndWait`: `pollingInterval ||
input.pollIntervalSeconds`. -/
def intervalToUse (i : Input) (p : Nat) : Nat :=
  if p = 0 then i.pollIntervalSeconds else p

/-- Common tail of the three waiting branches: compute the
interval (incrementing `attempt` exactly when backoff is enabled)
and recurse through `pollAndWait`, which sleeps `intervalToUse`
seconds and adds them to `secondsSoFar`. -/
def mkWaiting (mk : Nat → Nat → Transition) (i : Input) (e a : Nat) : TickResult :=
  let u := intervalToUse i (rawInterval i a)
  ⟨mk u (e + u), if i.exponentialBackoffRetries then a + 1 else a, none⟩

/-- Lines 196-212: the job-level decision, also reached as the
fall-through of a step-name miss; a job-name miss falls through to
the whole-run wait of line 215. -/
def jobLevel (i : Input) (e a : Nat) : Option Job → TickResult
  | some j =>
      if j.status ≠ "completed" then mkWaiting Transition.WaitingJob i e a
      else ⟨Transition.Proceeded, a, none⟩
  | none => mkWaiting Transition.WaitingFullRun i e a

/-- Lines 173-212: the step branch guarded by
`input.stepToWaitFor && job`, falling through to the job-level
decision on a step-name miss or when the guard fails. -/
def stepThenJob (i : Input) (e a : Nat) (stepsOf : Nat → List Step) :
    Option Job → TickResult
  | some j =>
      if truthyStr i.stepToWaitFor then
        match (stepsOf j.id).find? (fun s => s.name == i.stepToWaitFor.getD "") with
        | some st =>
            if st.status ≠ "completed" then mkWaiting Transition.WaitingStep i e a
            else ⟨Transition.Proceeded, a, none⟩
        | none => jobLevel i e a (some j)
      else jobLevel i e a (some j)
  | none => jobLevel i e a none

/-- One tick of `Waiter.wait` (lines 32-224): threshold checks,
fetch and filter, empty-set handling (with the initial-wait
retry), then the job / step / whole-run decision on the head of
`previousRuns`.  `jobsOf` and `stepsOf` stand for
`githubClient.jobs` / `githubClient.steps` keyed by run id and
job id. -/
def tick (i : Input) (runs : List Run) (jobsOf : Nat → List Job)
    (stepsOf : Nat → List Step) (e a : Nat) : TickResult :=
  if continueHit i e then ⟨Transition.Continued e, a, some "1"⟩
  else if abortHit i e then ⟨Transition.Aborted e, a, some ""⟩
  else
    match previousRuns i runs with
    | [] =>
        if 0 < i.initialWaitSeconds ∧ e < i.initialWaitSeconds then
          ⟨Transition.InitialDelay i.initialWaitSeconds (e + i.initialWaitSeconds), a, some ""⟩
        else ⟨Transition.Proceeded, a, some ""⟩
    | r :: _ =>
        if truthyStr i.jobToWaitFor then
          stepThenJob i e a stepsOf
            ((jobsOf r.id).find? (fun j => j.name == i.jobToWaitFor.getD ""))
        else mkWaiting Transition.WaitingFullRun i e a

/-- The value `wait` returns on a terminal transition: `Continued`
returns the elapsed seconds, every `return;` path (`Proceeded`)
returns `undefined`, and `Aborted` throws. -/
def terminalReturn : Transition → Option Nat
  | Transition.Continued e => some e
  | _ => none

/-- Projection selecting the `Waiting*` transitions with their
sleep interval and next elapsed value. -/
def waitingSleep : Transition → Option (Nat × Nat)
  | Transition.WaitingFullRun s e2 => some (s, e2)
  | Transition.WaitingJob s e2 => some (s, e2)
  | Transition.WaitingStep s e2 => some (s, e2)
  | _ => none

/-- Sleep interval and next elapsed value of any non-terminal
transition. -/
def transitionNext : Transition → Option (Nat × Nat)
  | Transition.InitialDelay s e2 => some (s, e2)
  | t => waitingSleep t

/-- Iterate `tick` from state `(e, a)` against a fixed
environment, collecting the sleep intervals of the non-terminal
transitions; terminal transitions stop the trace. -/
def traceAux (i : Input) (runs : List Run) (jobsOf : Nat → List Job)
    (stepsOf : Nat → List Step) : Nat → Nat × Nat → List Nat
  | 0, _ => []
  | n + 1, (e, a) =>
      let t := tick i runs jobsOf stepsOf e a
      match transitionNext t.transition with
      | some (s, e2) => s :: traceAux i runs jobsOf stepsOf n (e2, t.attempt)
      | none => []

/-- The filter-and-ordering pipeline exactly as the specification
words it: (1) if a queue-name filter is configured, keep only runs
whose display title or name contains that substring; (2) keep only
runs with id strictly less than the current run id; (3) drop runs
whose conclusion equals "success"; (4) sort the remainder by id,
descending. -/
def specPreviousRuns (i : Input) (runs : List Run) : List Run :=
  let s1 :=
    if truthyStr i.queueName then
      runs.filter fun r =>
        optIncludes r.display_title (i.queueName.getD "") ||
          optIncludes r.name (i.queueName.getD "")
    else runs
  let s2 := s1.filter fun r => r.id < i.runId
  let s3 := s2.filter fun r => decide ¬(r.conclusion = some "success")
  sortRunsDesc s3

/-- Concrete fixture: a queued run with id 3 and no conclusion. -/
def run3 : Run := ⟨3, "queued", none, none, none⟩

/-- Concrete fixture: an in-progress run with id 5. -/
def run5 : Run := ⟨5, "in_progress", none, none, none⟩

/-- Concrete fixture: a completed run with id 7 and conclusion
"success". -/
def run7s : Run := ⟨7, "completed", some "success", none, none⟩

/-- Concrete fixture: an in-progress run with id 12, after the
current run id 10. -/
def run12 : Run := ⟨12, "in_progress", none, none, none⟩

/-- Concrete fixture: current run id 10, base interval 15 seconds,
no thresholds, no filters, backoff disabled. -/
def exInput : Input := ⟨10, 15, none, none, 0, none, none, none, false⟩

/-- Concrete fixture: a run list with a success, a later run and
two waitable runs. -/
def exRuns : List Run := [run3, run7s, run5, run12]

/-- Concrete fixture: no jobs for any run. -/
def noJobs : Nat → List Job := fun _ => []

/-- Concrete fixture: no steps for any job. -/
def noSteps : Nat → List Step := fun _ => []

/-- Concrete fixture: `exInput` with a continue-after threshold of
30 seconds. -/
def caInput : Input := { exInput with continueAfterSeconds := some 30 }

/-- Concrete fixture: `exInput` with an abort-after threshold of
20 seconds. -/
def aaInput : Input := { exInput with abortAfterSeconds := some 20 }

/-- Concrete fixture: `exInput` with a continue-after threshold
configured as the value 0. -/
def z0Input : Input := { exInput with continueAfterSeconds := some 0 }

/-- Concrete fixture: `exInput` with an abort-after threshold
configured as the value 0. -/
def a0Input : Input := { exInput with abortAfterSeconds := some 0 }

/-- Concrete fixture: `exInput` with an initial-wait threshold of
10 seconds. -/
def iwInput : Input := { exInput with initialWaitSeconds := 10 }

/-- Concrete fixture: `exInput` targeting the job named "build". -/
def jobInput : Input := { exInput with jobToWaitFor := some "build" }

/-- Concrete fixture: `exInput` targeting step "lint" of job
"build". -/
def stepInput : Input :=
  { exInput with jobToWaitFor := some "build", stepToWaitFor := some "lint" }

/-- Concrete fixture: base interval 1 second, exponential backoff
enabled, no thresholds or filters. -/
def boInput : Input := ⟨10, 1, none, none, 0, none, none, none, true⟩

/-- Concrete fixture: every run has a single completed job named
"build". -/
def buildJobs : Nat → List Job := fun _ => [⟨1, "build", "completed"⟩]

/-- Concrete fixture: every run has a single job whose name does
not match "build". -/
def missJobs : Nat → List Job := fun _ => [⟨1, "other", "in_progress"⟩]


theorem insertRun_perm (r : Run) (l : List Run) :
    (insertRun r l).Perm (r :: l) := by
  induction l with
  | nil => simp [insertRun]
  | cons x xs ih =>
      by_cases hc : r.id ≥ x.id
      · simp [insertRun, hc]
      · simp only [insertRun, if_neg hc]
        exact (ih.cons x).trans (List.Perm.swap r x xs)

theorem sortRunsDesc_perm (l : List Run) : (sortRunsDesc l).Perm l := by
  induction l with
  | nil => simp [sortRunsDesc]
  | cons x xs ih => exact (insertRun_perm x (sortRunsDesc xs)).trans (ih.cons x)

theorem insertRun_pairwise (r : Run) (l : List Run)
    (h : l.Pairwise fun a b => b.id ≤ a.id) :
    (insertRun r l).Pairwise fun a b => b.id ≤ a.id := by
  induction l with
  | nil => simp [insertRun]
  | cons x xs ih =>
      rw [List.pairwise_cons] at h
      obtain ⟨hx, hxs⟩ := h
      by_cases hc : r.id ≥ x.id
      · rw [insertRun, if_pos hc, List.pairwise_cons]
        refine ⟨?_, List.pairwise_cons.mpr ⟨hx, hxs⟩⟩
        intro b hb
        rcases List.mem_cons.mp hb with hb | hb
        · exact hb ▸ hc
        · exact le_trans (hx b hb) hc
      · rw [insertRun, if_neg hc, List.pairwise_cons]
        refine ⟨?_, ih hxs⟩
        intro b hb
        rcases List.mem_cons.mp ((insertRun_perm r xs).mem_iff.mp hb) with hb | hb
        · exact hb ▸ Nat.le_of_lt (Nat.lt_of_not_le hc)
        · exact hx b hb

theorem sortRunsDesc_pairwise (l : List Run) :
    (sortRunsDesc l).Pairwise fun a b => b.id ≤ a.id := by
  induction l with
  | nil => simp [sortRunsDesc]
  | cons x xs ih => exact insertRun_pairwise x (sortRunsDesc xs) ih

theorem queueFiltered_sublist (i : Input) (runs : List Run) :
    (queueFiltered i runs).Sublist runs := by
  unfold queueFiltered
  split
  · exact List.filter_sublist runs
  · exact List.Sublist.refl runs

theorem previousRuns_perm_filter (i : Input) (runs : List Run) :
    (previousRuns i runs).Perm
      ((runsBeforeCurrent i runs).filter fun r =>
        !(r.conclusion == some "success")) :=
  sortRunsDesc_perm _

/-- C2: the relevant-previous-run list equals the specification's
four-step pipeline (queue-substring filter, id strictly below
current, drop conclusion "success", sort descending by id); it
never contains a run with id at or above the current run id; and
whenever the fetched runs have pairwise distinct ids it is sorted
strictly descending by id. -/
theorem previousRuns_pipeline (i : Input) (runs : List Run) :
    previousRuns i runs = specPreviousRuns i runs ∧
    (∀ r ∈ previousRuns i runs, r.id < i.runId) ∧
    ((runs.map Run.id).Nodup →
      (previousRuns i runs).Pairwise fun a b => b.id < a.id) := by
  refine ⟨?_, ?_, ?_⟩
  · unfold previousRuns specPreviousRuns runsBeforeCurrent
    congr 1
    apply List.filter_congr
    intro x _
    by_cases h : x.conclusion = some "success" <;> simp [h]
  · intro r hr
    have hmem := (previousRuns_perm_filter i runs).mem_iff.mp hr
    have h1 : r ∈ runsBeforeCurrent i runs := (List.mem_filter.mp hmem).1
    have h2 := (List.mem_filter.mp h1).2
    simpa using h2
  · intro hnd
    have hsorted := sortRunsDesc_pairwise
      ((runsBeforeCurrent i runs).filter fun r => !(r.conclusion == some "success"))
    have hsub :
        ((runsBeforeCurrent i runs).filter fun r =>
          !(r.conclusion == some "success")).Sublist runs :=
      (List.filter_sublist _).trans
        ((List.filter_sublist _).trans (queueFiltered_sublist i runs))
    have h1 :
        ((((runsBeforeCurrent i runs).filter fun r =>
          !(r.conclusion == some "success"))).map Run.id).Nodup :=
      (hsub.map Run.id).nodup hnd
    have hnd2 : ((previousRuns i runs).map Run.id).Nodup :=
      (((previousRuns_perm_filter i runs).map Run.id).nodup_iff).mpr h1
    have hne : (previousRuns i runs).Pairwise fun a b => a.id ≠ b.id :=
      List.pairwise_map.mp hnd2
    exact (hsorted.and hne).imp fun h => lt_of_le_of_ne h.1 fun e => h.2 e.symm

/-- Witness for C2 at a concrete run list: the pipeline equality,
the id bound for the member `run3`, and strict descending order
all hold on `exRuns`. -/
theorem previousRuns_pipeline_witness :
    previousRuns exInput exRuns = specPreviousRuns exInput exRuns ∧
    run3.id < exInput.runId ∧
    (previousRuns exInput exRuns).Pairwise (fun a b => b.id < a.id) := by
  refine ⟨(previousRuns_pipeline exInput exRuns).1, ?_, ?_⟩
  · exact (previousRuns_pipeline exInput exRuns).2.1 run3 (by decide)
  · exact (previousRuns_pipeline exInput exRuns).2.2 (by decide)

theorem jobLevel_cases (i : Input) (e a : Nat) (o : Option Job) :
    jobLevel i e a o = mkWaiting Transition.WaitingJob i e a ∨
    jobLevel i e a o = mkWaiting Transition.WaitingFullRun i e a ∨
    jobLevel i e a o = ⟨Transition.Proceeded, a, none⟩ := by
  cases o with
  | none => exact Or.inr (Or.inl rfl)
  | some j =>
      simp only [jobLevel]
      split
      · exact Or.inl rfl
      · exact Or.inr (Or.inr rfl)

theorem stepThenJob_cases (i : Input) (e a : Nat) (stepsOf : Nat → List Step)
    (o : Option Job) :
    stepThenJob i e a stepsOf o = mkWaiting Transition.WaitingStep i e a ∨
    stepThenJob i e a stepsOf o = mkWaiting Transition.WaitingJob i e a ∨
    stepThenJob i e a stepsOf o = mkWaiting Transition.WaitingFullRun i e a ∨
    stepThenJob i e a stepsOf o = ⟨Transition.Proceeded, a, none⟩ := by
  cases o with
  | none =>
      have h := jobLevel_cases i e a none
      simp only [stepThenJob]
      tauto
  | some j =>
      simp only [stepThenJob]
      split
      · split
        · split
          · exact Or.inl rfl
          · exact Or.inr (Or.inr (Or.inr rfl))
        · have h := jobLevel_cases i e a (some j)
          tauto
      · have h := jobLevel_cases i e a (some j)
        tauto

theorem stepThenJob_forceOut (i : Input) (e a : Nat) (stepsOf : Nat → List Step)
    (o : Option Job) : (stepThenJob i e a stepsOf o).forceOut = none := by
  rcases stepThenJob_cases i e a stepsOf o with h | h | h | h <;> rw [h] <;> rfl

theorem intervalToUse_raw (i : Input) (a : Nat) :
    intervalToUse i (rawInterval i a) =
      if i.exponentialBackoffRetries then i.pollIntervalSeconds * max 1 (2 * a)
      else i.pollIntervalSeconds := by
  cases hb : i.exponentialBackoffRetries with
  | false => simp [intervalToUse, rawInterval, hb]
  | true =>
      simp only [intervalToUse, rawInterval, hb, if_true]
      by_cases ha : 2 * a = 0
      · simp [ha]
      · have hm : max 1 (2 * a) = 2 * a := by omega
        rw [hm]
        simp only [if_neg ha]
        split
        · next h0 =>
            rcases Nat.mul_eq_zero.mp h0 with h | h
            · simp [h]
            · omega
        · rfl

/-- C3: if the continue-after threshold is truthy and elapsed has
reached it, the tick is the `Continued` terminal state — the
force-continued signal is set to "1" and the elapsed value is
returned — regardless of any abort-after threshold or outstanding
runs; otherwise, if the abort-after threshold is truthy and
elapsed has reached it, the tick is the fatal `Aborted` state
carrying the elapsed value. -/
theorem tick_thresholds (i : Input) (runs : List Run) (jobsOf : Nat → List Job)
    (stepsOf : Nat → List Step) (e a : Nat) :
    (continueHit i e = true →
      tick i runs jobsOf stepsOf e a = ⟨Transition.Continued e, a, some "1"⟩) ∧
    (continueHit i e = false → abortHit i e = true →
      tick i runs jobsOf stepsOf e a = ⟨Transition.Aborted e, a, some ""⟩) := by
  constructor
  · intro h
    simp [tick, h]
  · intro h1 h2
    simp [tick, h1, h2]

/-- Witness for C3: with continue-after 30 at elapsed 35 the tick
continues even though a previous run is outstanding; with
abort-after 20 at elapsed 25 it aborts carrying 25. -/
theorem tick_thresholds_witness :
    tick caInput [run5] noJobs noSteps 35 2 =
      ⟨Transition.Continued 35, 2, some "1"⟩ ∧
    tick aaInput [run5] noJobs noSteps 25 2 =
      ⟨Transition.Aborted 25, 2, some ""⟩ :=
  ⟨(tick_thresholds caInput [run5] noJobs noSteps 35 2).1 (by decide),
   (tick_thresholds aaInput [run5] noJobs noSteps 25 2).2 (by decide) (by decide)⟩

/-- C9: a continue-after or abort-after threshold configured with
the value 0 is falsy, so the tick behaves exactly as if the
threshold were absent. -/
theorem tick_zero_thresholds (i : Input) (runs : List Run) (jobsOf : Nat → List Job)
    (stepsOf : Nat → List Step) (e a : Nat) :
    (i.continueAfterSeconds = some 0 →
      tick i runs jobsOf stepsOf e a =
        tick { i with continueAfterSeconds := none } runs jobsOf stepsOf e a) ∧
    (i.abortAfterSeconds = some 0 →
      tick i runs jobsOf stepsOf e a =
        tick { i with abortAfterSeconds := none } runs jobsOf stepsOf e a) := by
  obtain ⟨f1, f2, f3, f4, f5, f6, f7, f8, f9⟩ := i
  constructor
  · intro h
    cases h
    rfl
  · intro h
    cases h
    rfl

/-- Witness for C9: at elapsed 100, a threshold of 0 neither
continues nor aborts — the tick equals the no-threshold tick. -/
theorem tick_zero_thresholds_witness :
    tick z0Input [run5] noJobs noSteps 100 0 =
      tick { z0Input with continueAfterSeconds := none } [run5] noJobs noSteps 100 0 ∧
    tick a0Input [run5] noJobs noSteps 100 0 =
      tick { a0Input with abortAfterSeconds := none } [run5] noJobs noSteps 100 0 :=
  ⟨(tick_zero_thresholds z0Input [run5] noJobs noSteps 100 0).1 rfl,
   (tick_zero_thresholds a0Input [run5] noJobs noSteps 100 0).2 rfl⟩

/-- C10: the force-continued output is written "1" only on the
`Continued` terminal state; it is written "" immediately before
the `Aborted` throw; and it is written "" on every tick whose
filtered wait set is empty — including ticks that then take the
`InitialDelay` retry path instead of terminating. -/
theorem tick_forceOut (i : Input) (runs : List Run) (jobsOf : Nat → List Job)
    (stepsOf : Nat → List Step) (e a : Nat) :
    ((tick i runs jobsOf stepsOf e a).forceOut = some "1" →
      (tick i runs jobsOf stepsOf e a).transition = Transition.Continued e) ∧
    (∀ e0, (tick i runs jobsOf stepsOf e a).transition = Transition.Aborted e0 →
      (tick i runs jobsOf stepsOf e a).forceOut = some "") ∧
    (continueHit i e = false → abortHit i e = false → previousRuns i runs = [] →
      (tick i runs jobsOf stepsOf e a).forceOut = some "") ∧
    (∀ s e2, (tick i runs jobsOf stepsOf e a).transition = Transition.InitialDelay s e2 →
      (tick i runs jobsOf stepsOf e a).forceOut = some "") := by
  simp only [tick]
  split
  · simp_all
  · split
    · simp_all
    · split
      · split <;> simp_all
      · split
        · rcases stepThenJob_cases i e a stepsOf _ with h | h | h | h <;>
            rw [h] <;> simp_all [mkWaiting]
        · simp_all [mkWaiting]

/-- Witness for C10: on a tick with no previous runs and no
thresholds, the force-continued output is cleared. -/
theorem tick_forceOut_witness :
    (tick exInput [] noJobs noSteps 0 0).forceOut = some "" :=
  (tick_forceOut exInput [] noJobs noSteps 0 0).2.2.1 (by decide) (by decide) (by decide)

/-- C6: the attempt counter is unchanged by an `InitialDelay`
retry, and it changes only when the tick takes one of the
`Waiting*` transitions. -/
theorem tick_attempt (i : Input) (runs : List Run) (jobsOf : Nat → List Job)
    (stepsOf : Nat → List Step) (e a : Nat) :
    (∀ s e2, (tick i runs jobsOf stepsOf e a).transition = Transition.InitialDelay s e2 →
      (tick i runs jobsOf stepsOf e a).attempt = a) ∧
    ((tick i runs jobsOf stepsOf e a).attempt ≠ a →
      waitingSleep ((tick i runs jobsOf stepsOf e a).transition) ≠ none) := by
  simp only [tick]
  split
  · simp_all
  · split
    · simp_all
    · split
      · split <;> simp_all
      · split
        · rcases stepThenJob_cases i e a stepsOf _ with h | h | h | h <;>
            rw [h] <;> simp_all [mkWaiting, waitingSleep]
        · simp_all [mkWaiting, waitingSleep]

/-- Witness for C6: a tick taking the `InitialDelay` path (empty
wait set, initial-wait 10, elapsed 0) leaves the attempt counter
at its previous value 5. -/
theorem tick_attempt_witness :
    (tick iwInput [] noJobs noSteps 0 5).attempt = 5 :=
  (tick_attempt iwInput [] noJobs noSteps 0 5).1 10 10 (by decide)

/-- C5: on any `Waiting*` transition the slept interval is the
base poll interval when backoff is disabled and base times
`max 1 (2 * attempt)` when enabled, the attempt counter is
incremented exactly when backoff is enabled, and the recursive
call receives elapsed plus exactly the slept interval. -/
theorem tick_waiting_interval (i : Input) (runs : List Run) (jobsOf : Nat → List Job)
    (stepsOf : Nat → List Step) (e a s e2 : Nat)
    (h : waitingSleep ((tick i runs jobsOf stepsOf e a).transition) = some (s, e2)) :
    s = (if i.exponentialBackoffRetries then i.pollIntervalSeconds * max 1 (2 * a)
      else i.pollIntervalSeconds) ∧
    (tick i runs jobsOf stepsOf e a).attempt =
      (if i.exponentialBackoffRetries then a + 1 else a) ∧
    e2 = e + s := by
  rw [← intervalToUse_raw]
  revert h
  simp only [tick]
  split
  · intro h; simp [waitingSleep] at h
  · split
    · intro h; simp [waitingSleep] at h
    · split
      · split <;> (intro h; simp [waitingSleep] at h)
      · split
        · rcases stepThenJob_cases i e a stepsOf _ with hc | hc | hc | hc <;>
            rw [hc] <;> intro h <;> simp [mkWaiting, waitingSleep] at h <;>
            (obtain ⟨h1, h2⟩ := h
             subst h1
             subst h2
             exact ⟨rfl, by simp [mkWaiting], rfl⟩)
        · intro h
          simp [mkWaiting, waitingSleep] at h
          obtain ⟨h1, h2⟩ := h
          subst h1
          subst h2
          exact ⟨rfl, by simp [mkWaiting], rfl⟩

/-- Witness for C5: with backoff enabled, base 1 and attempt 0,
the full-run wait sleeps 1 second, increments the attempt counter
and recurses with elapsed 0 + 1. -/
theorem tick_waiting_interval_witness :
    1 = (if boInput.exponentialBackoffRetries then
      boInput.pollIntervalSeconds * max 1 (2 * 0)
      else boInput.pollIntervalSeconds) ∧
    (tick boInput [run5] noJobs noSteps 0 0).attempt =
      (if boInput.exponentialBackoffRetries then 0 + 1 else 0) ∧
    1 = 0 + 1 :=
  tick_waiting_interval boInput [run5] noJobs noSteps 0 0 1 1 (by decide)

/-- C8: on a tick that passes the threshold checks with a
non-empty relevant-previous-run list, if no job target is truthy
or the job lookup misses, the outcome is the whole-run wait — the
head run's `status` field plays no part in the decision. -/
theorem tick_fullrun (i : Input) (runs : List Run) (jobsOf : Nat → List Job)
    (stepsOf : Nat → List Step) (e a : Nat) (r : Run) (rest : List Run)
    (hc : continueHit i e = false) (hab : abortHit i e = false)
    (hp : previousRuns i runs = r :: rest)
    (hj : truthyStr i.jobToWaitFor = false ∨
      (jobsOf r.id).find? (fun jb => jb.name == i.jobToWaitFor.getD "") = none) :
    tick i runs jobsOf stepsOf e a = mkWaiting Transition.WaitingFullRun i e a := by
  simp only [tick, hc, hab, hp]
  rcases hj with hj | hj
  · simp [hj]
  · by_cases ht : truthyStr i.jobToWaitFor
    · simp [ht, hj, stepThenJob, jobLevel]
    · simp [ht]

/-- Witness for C8: with no job target and one outstanding
in-progress run, the tick is the whole-run wait. -/
theorem tick_fullrun_witness :
    tick exInput [run5] noJobs noSteps 0 0 =
      mkWaiting Transition.WaitingFullRun exInput 0 0 :=
  tick_fullrun exInput [run5] noJobs noSteps 0 0 run5 []
    (by decide) (by decide) (by decide) (Or.inl (by decide))

/-- C7: a job-name miss falls back to the whole-run wait rather
than erroring, and a step-name miss (job found, step lookup
empty) falls back to the job-level decision. -/
theorem tick_fallbacks (i : Input) (runs : List Run) (jobsOf : Nat → List Job)
    (stepsOf : Nat → List Step) (e a : Nat) (r : Run) (rest : List Run) (j : Job)
    (hc : continueHit i e = false) (hab : abortHit i e = false)
    (hp : previousRuns i runs = r :: rest) :
    (truthyStr i.jobToWaitFor = true →
      (jobsOf r.id).find? (fun jb => jb.name == i.jobToWaitFor.getD "") = none →
      tick i runs jobsOf stepsOf e a = mkWaiting Transition.WaitingFullRun i e a) ∧
    (truthyStr i.jobToWaitFor = true →
      (jobsOf r.id).find? (fun jb => jb.name == i.jobToWaitFor.getD "") = some j →
      truthyStr i.stepToWaitFor = true →
      (stepsOf j.id).find? (fun st => st.name == i.stepToWaitFor.getD "") = none →
      tick i runs jobsOf stepsOf e a = jobLevel i e a (some j)) := by
  constructor
  · intro ht hf
    simp [tick, hc, hab, hp, ht, hf, stepThenJob, jobLevel]
  · intro ht hf hs hns
    simp [tick, hc, hab, hp, ht, hf, stepThenJob, hs, hns]

/-- Witness for C7: targeting job "build" when only "other"
exists falls back to the whole-run wait; targeting step "lint" of
the found job "build" when the job has no steps falls back to the
job-level decision. -/
theorem tick_fallbacks_witness :
    tick jobInput [run5] missJobs noSteps 0 0 =
      mkWaiting Transition.WaitingFullRun jobInput 0 0 ∧
    tick stepInput [run5] buildJobs noSteps 0 0 =
      jobLevel stepInput 0 0 (some ⟨1, "build", "completed"⟩) :=
  ⟨(tick_fallbacks jobInput [run5] missJobs noSteps 0 0 run5 []
      ⟨1, "build", "completed"⟩ (by decide) (by decide) (by decide)).1
      (by decide) (by decide),
   (tick_fallbacks stepInput [run5] buildJobs noSteps 0 0 run5 []
      ⟨1, "build", "completed"⟩ (by decide) (by decide) (by decide)).2
      (by decide) (by decide) (by decide) (by decide)⟩

/-- Counterexample to C1: a tick reaching `Proceeded` through the
completed-job path does not clear the force-continued signal (no
`setOutput` call occurs), and the function returns no elapsed
value. -/
theorem proceeded_signal_counterexample :
    (tick jobInput [run5] buildJobs noSteps 0 0).transition = Transition.Proceeded ∧
    ¬((tick jobInput [run5] buildJobs noSteps 0 0).forceOut = some "") ∧
    terminalReturn ((tick jobInput [run5] buildJobs noSteps 0 0).transition) = none := by
  decide

/-- C1 (amended): on every path that reaches the `Proceeded`
terminal state, `wait` returns without an elapsed value, and the
force-continued signal is cleared exactly when `Proceeded` is
reached with an empty relevant-previous-run list; on the
completed-job and completed-step paths the signal is left
untouched. -/
theorem proceeded_signal (i : Input) (runs : List Run) (jobsOf : Nat → List Job)
    (stepsOf : Nat → List Step) (e a : Nat)
    (h : (tick i runs jobsOf stepsOf e a).transition = Transition.Proceeded) :
    (tick i runs jobsOf stepsOf e a).forceOut =
      (if previousRuns i runs = [] then some "" else none) ∧
    terminalReturn ((tick i runs jobsOf stepsOf e a).transition) = none := by
  refine ⟨?_, by rw [h]; rfl⟩
  revert h
  simp only [tick]
  split
  · intro h; simp at h
  · split
    · intro h; simp at h
    · split
      · intro _
        split <;> simp_all
      · intro _
        split
        · rw [stepThenJob_forceOut]
          simp_all
        · simp_all [mkWaiting]

/-- Witness for C1 (amended): a `Proceeded` tick with no fetched
runs clears the signal and returns no elapsed value. -/
theorem proceeded_signal_witness :
    (tick exInput [] noJobs noSteps 0 0).forceOut =
      (if previousRuns exInput [] = [] then some "" else none) ∧
    terminalReturn ((tick exInput [] noJobs noSteps 0 0).transition) = none :=
  proceeded_signal exInput [] noJobs noSteps 0 0 (by decide)

/-- Counterexample to C4: with backoff enabled and base interval
1, the first four waiting intervals are 1, 2, 4, 6 — the fourth is
6, not the claimed 1 times 2 to the power 3 = 8. -/
theorem backoff_counterexample :
    traceAux boInput [run5] noJobs noSteps 4 (0, 0) = [1, 2, 4, 6] ∧
    (traceAux boInput [run5] noJobs noSteps 4 (0, 0)).getD 3 0 ≠
      boInput.pollIntervalSeconds * 2 ^ (4 - 1) := by
  decide

/-- C4 (amended): with backoff enabled and base interval `b`, the
k-th waiting interval (1-indexed, starting from attempt counter
`a`) is `b * max 1 (2 * (a + k - 1))`: from a fresh state the
sequence is `b, 2b, 4b, 6b, 8b, ...` — linear doubling of the
attempt count, not powers of two. -/
theorem backoff_trace (i : Input) (runs : List Run) (jobsOf : Nat → List Job)
    (stepsOf : Nat → List Step)
    (hb : i.exponentialBackoffRetries = true)
    (hca : i.continueAfterSeconds = none) (haa : i.abortAfterSeconds = none)
    (hj : truthyStr i.jobToWaitFor = false)
    (hne : previousRuns i runs ≠ []) :
    ∀ n e a, traceAux i runs jobsOf stepsOf n (e, a) =
      (List.range n).map fun k => i.pollIntervalSeconds * max 1 (2 * (a + k)) := by
  intro n
  induction n with
  | zero => intro e a; simp [traceAux]
  | succ m ih =>
      intro e a
      have hch : continueHit i e = false := by simp [continueHit, hca, truthyNat]
      have hah : abortHit i e = false := by simp [abortHit, haa, truthyNat]
      obtain ⟨r, rest, hp⟩ : ∃ r rest, previousRuns i runs = r :: rest := by
        cases hx : previousRuns i runs with
        | nil => exact absurd hx hne
        | cons r rest => exact ⟨r, rest, rfl⟩
      have htick : tick i runs jobsOf stepsOf e a =
          mkWaiting Transition.WaitingFullRun i e a := by
        simp [tick, hch, hah, hp, hj]
      have hu : intervalToUse i (rawInterval i a) =
          i.pollIntervalSeconds * max 1 (2 * a) := by
        rw [intervalToUse_raw, hb]
        simp
      rw [traceAux, htick]
      simp only [mkWaiting, hb, if_true, transitionNext, waitingSleep]
      rw [ih, List.range_succ_eq_map, List.map_cons, List.map_map]
      simp only [Function.comp, Nat.add_zero, List.cons.injEq]
      refine ⟨hu, List.map_congr_left fun k _ => ?_⟩
      congr 2
      omega

/-- Witness for C4 (amended): from a fresh state with base 1 the
first three waiting intervals are exactly the amended formula's
values 1, 2, 4. -/
theorem backoff_trace_witness :
    traceAux boInput [run5] noJobs noSteps 3 (0, 0) =
      (List.range 3).map fun k => boInput.pollIntervalSeconds * max 1 (2 * (0 + k)) :=
  backoff_trace boInput [run5] noJobs noSteps (by decide) (by decide) (by decide)
    (by decide) (by decide) 3 0 0
